import Mathlib

/-!
Shallow embedding of the asynchronous sonar visualization pipeline of
`src/utils/sonar_viz.py` (class `PolarSonarVisualizerAsync`) and of the beam
accumulator of `src/lib/custom_sensors/scanning_sonar.py` (class
`ScanningImagingSonar`).

Modelling conventions:
* Machine floats are modelled as exact rationals (`ℚ`); the float literal
  `1e-6` is modelled as `1/1000000`.
* A numpy/torch array is modelled by its nesting structure: `PyArr` holds
  rank-1/2/3 arrays of rationals (ranks occurring in the pipeline), `PyArrN`
  the corresponding uint8 (natural-number valued) results.
* The capacity-1 `queue.Queue` is modelled as a `List` of pending items
  (front = oldest); `get_nowait` takes from the front, `put_nowait` appends
  only when fewer than 1 item is pending (otherwise the exception is swallowed,
  as in the source).
* Operations that raise in Python (reductions over empty tensors) return
  `none` / are modelled with `Option`.
-/

/-- A numpy/torch array of rank 1, 2 or 3 with rational entries
(rank 2 is range-bins x azimuth-bins, row major as a list of rows). -/
inductive PyArr where
  | a1 (d : List ℚ)
  | a2 (d : List (List ℚ))
  | a3 (d : List (List (List ℚ)))
  deriving DecidableEq, Repr

/-- A uint8-valued array of rank 1, 2 or 3 (result of the normalizer). -/
inductive PyArrN where
  | a1 (d : List ℕ)
  | a2 (d : List (List ℕ))
  | a3 (d : List (List (List ℕ)))
  deriving DecidableEq, Repr

/-- `ndarray.ndim`. -/
def PyArr.ndim : PyArr → ℕ
  | .a1 _ => 1
  | .a2 _ => 2
  | .a3 _ => 3

/-- `sonar[..., 0]`: channel-0 slice of a rank-3 array (identity on other
ranks, where the source never applies it).  numpy requires the last axis to be
nonempty; on a well-formed frame every innermost list is nonempty, and the
default `0` of `headD` is never used for such frames. -/
def PyArr.chan0 : PyArr → PyArr
  | .a3 d => .a2 (d.map (fun row => row.map (fun px => px.headD 0)))
  | a => a

/-- All elements of the array, flattened (row-major). -/
def PyArr.elems : PyArr → List ℚ
  | .a1 d => d
  | .a2 d => d.flatten
  | .a3 d => (d.map List.flatten).flatten

/-- Rank-preserving elementwise map into uint8 values. -/
def PyArr.mapToN (f : ℚ → ℕ) : PyArr → PyArrN
  | .a1 d => .a1 (d.map f)
  | .a2 d => .a2 (d.map (fun r => r.map f))
  | .a3 d => .a3 (d.map (fun r => r.map (fun c => c.map f)))

/-- Minimum of a list of rationals; `none` on the empty list (where the
tensor reduction `amin` / `ndarray.min` raises). -/
def listMin : List ℚ → Option ℚ
  | [] => none
  | x :: xs => some (xs.foldl min x)

/-- Maximum of a list of rationals; `none` on the empty list. -/
def listMax : List ℚ → Option ℚ
  | [] => none
  | x :: xs => some (xs.foldl max x)

/-- `t.clamp(0.0, 1.0)` / `np.clip(·, 0.0, 1.0)` applied to one element. -/
def clamp01 (x : ℚ) : ℚ := max 0 (min 1 x)

/-- `(· * 255).to(torch.uint8)` / `astype(np.uint8)` on one clamped element:
truncation to an unsigned 8-bit integer.  On the values produced here (all in
`[0, 255]`) the cast truncates toward zero, i.e. takes the floor. -/
def quantU8 (x : ℚ) : ℕ := (⌊x * 255⌋).toNat

/-- The persistent EMA scale state `(self._lo, self._hi)`; `none` models the
initial `_lo = _hi = None`. -/
abbrev ScaleState := Option (ℚ × ℚ)

/-- `PolarSonarVisualizerAsync._normalize_to_u8`.

Computes min/max of the frame, seeds or EMA-updates the scale state, floors
the denominator `hi - lo` to `1e-6` (locally only: the stored state keeps the
un-floored values, as in the source), then maps every element through
`clamp((x - lo)/(hi - lo), 0, 1) * 255` truncated to uint8.

Returns `none` when the frame has no elements (the source raises inside the
reduction before any state mutation).  The torch and the numpy fallback paths
of the source compute the identical formula; they are modelled once. -/
def normalize_to_u8 (ema_alpha : ℚ) (st : ScaleState) (img : PyArr) :
    Option ((ℚ × ℚ) × PyArrN) :=
  match listMin img.elems, listMax img.elems with
  | some lo0, some hi0 =>
      let st' : ℚ × ℚ :=
        match st with
        | none => (lo0, hi0)
        | some (l, h) =>
            ((1 - ema_alpha) * l + ema_alpha * lo0,
             (1 - ema_alpha) * h + ema_alpha * hi0)
      let lo := st'.1
      let hi := if st'.2 - st'.1 < 1 / 1000000 then st'.1 + 1 / 1000000 else st'.2
      some (st', img.mapToN (fun x => quantU8 (clamp01 ((x - lo) / (hi - lo)))))
  | _, _ => none

/-- `Queue.put_nowait` on a capacity-1 queue; when the queue is full the
`queue.Full` exception is swallowed by the caller's `except` (the item is
silently dropped). -/
def putNowait (q : List PyArr) (x : PyArr) : List PyArr :=
  if q.length < 1 then q ++ [x] else q

/-- `Queue.get_nowait`: the pending item (front) and the remaining queue;
`none` when empty. -/
def tryTake (q : List PyArr) : Option PyArr × List PyArr :=
  match q with
  | [] => (none, [])
  | x :: rest => (some x, rest)

/-- `PolarSonarVisualizerAsync.submit`: `None` is rejected, a rank-3 frame is
reduced to its channel-0 slice, then the drain loop empties the input queue
(`get_nowait` until `Empty`) and `put_nowait` stores the new frame. -/
def submit (q : List PyArr) (sonar : Option PyArr) : List PyArr :=
  match sonar with
  | none => q
  | some s =>
      let s2 := if s.ndim = 3 then s.chan0 else s
      putNowait [] s2

/-! ### Worker thread and lifecycle (`_worker_loop`, `close`) -/

/-- The shared mutable state of a `PolarSonarVisualizerAsync` instance that the
main thread and the worker thread both touch: the running flag, the two
capacity-1 queues and the EMA scale state. -/
structure VizState where
  running : Bool
  in_q : List PyArr
  out_q : List PyArrN
  scale : ScaleState
  deriving DecidableEq, Repr

/-- Program counter of the worker thread inside `_worker_loop`:
`check` = about to test `self._running`; `recv` = inside
`self.in_q.get(timeout=0.1)`; `work f` = received frame `f`, about to
normalize and publish; `halted` = left the loop; `dead` = thread killed by an
uncaught exception. -/
inductive WPC where
  | check
  | recv
  | work (f : PyArr)
  | halted
  | dead
  deriving DecidableEq, Repr

/-- `PolarSonarVisualizerAsync.close`: the entire body is
`self._running = False`.  There is no join and no other effect. -/
def close (s : VizState) : VizState := { s with running := false }

/-- Submission seen as an action on the shared state (main thread). -/
def submitAction (s : VizState) (sonar : Option PyArr) : VizState :=
  { s with in_q := submit s.in_q sonar }

/-- One small step of the worker thread of `_worker_loop`.  At `recv`, an
empty input queue models the `get` timing out (loop back to the running
check); a pending frame is consumed.  At `work f`, the frame is normalized,
the scale state mutated and the result published newest-wins to `out_q`
(drain, then `put_nowait`); a normalization error (empty frame) kills the
thread with no state mutation. -/
def workerStep (ema_alpha : ℚ) : WPC × VizState → WPC × VizState
  | (.check, s) => if s.running then (.recv, s) else (.halted, s)
  | (.recv, s) =>
      match s.in_q with
      | [] => (.check, s)
      | f :: rest => (.work f, { s with in_q := rest })
  | (.work f, s) =>
      match normalize_to_u8 ema_alpha s.scale f with
      | some (st', u8) => (.check, { s with scale := some st', out_q := [u8] })
      | none => (.dead, s)
  | (.halted, s) => (.halted, s)
  | (.dead, s) => (.dead, s)

/-- `n` consecutive worker steps. -/
def workerSteps (ema_alpha : ℚ) : ℕ → WPC × VizState → WPC × VizState
  | 0, c => c
  | n + 1, c => workerSteps ema_alpha n (workerStep ema_alpha c)

/-! ### Renderer (`update_plot`) -/

/-- The renderer's private state: `last_plot_time` and the byte buffer last
handed to the mesh (`none` before the first present). -/
structure RenderState where
  last_plot_time : ℚ
  displayed : Option PyArrN
  deriving DecidableEq, Repr

/-- `PolarSonarVisualizerAsync.update_plot`, with the wall clock passed in
explicitly as `now`.  If less than `1/plot_hz` has elapsed since the last
present, nothing happens (the output queue is not even polled).  Otherwise
`get_nowait`: on `Empty`, nothing happens; on a frame, it is displayed and the
present timestamp recorded.  Returns the new renderer state, the remaining
output queue and whether a display update happened. -/
def update_plot (plot_hz now : ℚ) (st : RenderState) (out_q : List PyArrN) :
    RenderState × List PyArrN × Bool :=
  if now - st.last_plot_time < 1 / plot_hz then (st, out_q, false)
  else
    match out_q with
    | [] => (st, [], false)
    | u8 :: rest => (⟨now, some u8⟩, rest, true)

/-- A sequence of `update_plot` invocations; each call carries its own wall
clock reading and the content of the output queue at that moment (the worker
may have republished in between).  Returns the final renderer state and the
number of display updates performed. -/
def runCalls (plot_hz : ℚ) : List (ℚ × List PyArrN) → RenderState → RenderState × ℕ
  | [], st => (st, 0)
  | (now, q) :: rest, st =>
      let r := update_plot plot_hz now st q
      let t := runCalls plot_hz rest r.1
      (t.1, t.2 + (if r.2.2 then 1 else 0))

/-! ### Beam accumulator (`ScanningImagingSonar`) -/

/-- `torch.linspace a b n`: `n` evenly spaced values from `a` to `b`
(`[a]` when `n = 1`). -/
def linspace (a b : ℚ) (n : ℕ) : List ℚ :=
  if n ≤ 1 then (List.range n).map (fun _ => a)
  else (List.range n).map (fun i => a + i * (b - a) / (n - 1))

/-- The `ScanningImagingSonar` instance state: configuration plus the column
cursor `col` and the image buffer (range-bins rows x azimuth-bins columns). -/
structure Scanner where
  azimuth_bins : ℕ
  range_bins : ℕ
  range_max : ℚ
  col : ℕ
  buffer : List (List ℚ)
  deriving DecidableEq, Repr

/-- A freshly constructed `ScanningImagingSonar`: cursor 0, zero buffer. -/
def Scanner.init (azimuth_bins range_bins : ℕ) (range_max : ℚ) : Scanner :=
  ⟨azimuth_bins, range_bins, range_max, 0,
    List.replicate range_bins (List.replicate azimuth_bins 0)⟩

/-- `self.buffer[:, col] = profile`: write `profile` down column `col`. -/
def writeCol (buffer : List (List ℚ)) (c : ℕ) (profile : List ℚ) :
    List (List ℚ) :=
  List.zipWith (fun row x => row.set c x) buffer profile

/-- `ScanningImagingSonar._build_image`, parametric in the log-compression
function `log1p` (the transcendental `torch.log1p`, kept abstract in this
rational model; every theorem below holds for an arbitrary `log1p`).
Pipeline of the source: time-varying gain (multiply row `i` by
`ranges[i]^2`), log compression, division by `img.max() + 1e-6`, quantization
to uint8, and transposition to azimuth x range for visualization. -/
def Scanner.build_image (log1p : ℚ → ℚ) (s : Scanner) : List (List ℕ) :=
  let ranges := linspace 1 s.range_max s.range_bins
  let img := List.zipWith (fun r row => row.map (fun x => log1p (r ^ 2 * x)))
    ranges s.buffer
  let m := (listMax img.flatten).getD 0
  let u8 := img.map (fun row => row.map (fun x => quantU8 (x / (m + 1 / 1000000))))
  u8.transpose

/-- Modelled from the claim's words, for comparison with
`Scanner.build_image`: the frame described by the spec — the column-stacked
profiles with TVG, log compression, normalization by the frame's own maximum
(no epsilon, no transposition) and uint8 quantization applied. -/
def Scanner.build_image_claim (log1p : ℚ → ℚ) (s : Scanner) : List (List ℕ) :=
  let ranges := linspace 1 s.range_max s.range_bins
  let img := List.zipWith (fun r row => row.map (fun x => log1p (r ^ 2 * x)))
    ranges s.buffer
  let m := (listMax img.flatten).getD 0
  img.map (fun row => row.map (fun x => quantU8 (x / m)))

/-- `ScanningImagingSonar.step`: write the profile at the cursor column,
advance the cursor; while the cursor has not reached `azimuth_bins` return
`None`, otherwise reset the cursor to 0 and emit the built image. -/
def Scanner.step (log1p : ℚ → ℚ) (s : Scanner) (profile : List ℚ) :
    Scanner × Option (List (List ℕ)) :=
  let s1 := { s with buffer := writeCol s.buffer s.col profile, col := s.col + 1 }
  if s1.col < s1.azimuth_bins then (s1, none)
  else
    let s2 := { s1 with col := 0 }
    (s2, some (s2.build_image log1p))

/-- A sequence of `Scanner.step` calls, collecting each call's return value. -/
def runSteps (log1p : ℚ → ℚ) (s : Scanner) :
    List (List ℚ) → Scanner × List (Option (List (List ℕ)))
  | [] => (s, [])
  | p :: ps =>
      let r := s.step log1p p
      let t := runSteps log1p r.1 ps
      (t.1, r.2 :: t.2)

/-- Four profiles stacked as the four columns of a range x azimuth matrix:
row `i` is `[p1.get i, p2.get i, p3.get i, p4.get i]`. -/
def colStack4 : List ℚ → List ℚ → List ℚ → List ℚ → List (List ℚ)
  | a :: as, b :: bs, c :: cs, d :: ds => [a, b, c, d] :: colStack4 as bs cs ds
  | _, _, _, _ => []

/-- The implicit invariant of the EMA scale state: whenever it is seeded,
`_lo ≤ _hi`. -/
def ScaleInv : ScaleState → Prop
  | none => True
  | some (l, h) => l ≤ h

/-- The scale state after the worker has processed a sequence of frames
(a frame on which the normalization raises leaves the state untouched). -/
def processSeq (ema_alpha : ℚ) : List PyArr → ScaleState → ScaleState
  | [], st => st
  | f :: rest, st =>
      match normalize_to_u8 ema_alpha st f with
      | some (st', _) => processSeq ema_alpha rest (some st')
      | none => processSeq ema_alpha rest st

/-! ## Helper lemmas -/

lemma foldl_min_le (l : List ℚ) (a : ℚ) : List.foldl min a l ≤ a := by
  induction l generalizing a with
  | nil => exact le_refl a
  | cons b t ih => exact le_trans (ih (min a b)) (min_le_left a b)

lemma le_foldl_max (l : List ℚ) (a : ℚ) : a ≤ List.foldl max a l := by
  induction l generalizing a with
  | nil => exact le_refl a
  | cons b t ih => exact le_trans (le_max_left a b) (ih (max a b))

lemma listMin_le_listMax {l : List ℚ} {m M : ℚ}
    (hm : listMin l = some m) (hM : listMax l = some M) : m ≤ M := by
  cases l with
  | nil => simp [listMin] at hm
  | cons x xs =>
      simp only [listMin, listMax, Option.some.injEq] at hm hM
      subst hm; subst hM
      exact le_trans (foldl_min_le xs x) (le_foldl_max xs x)

lemma foldl_min_const (c : ℚ) (xs : List ℚ) (h : ∀ x ∈ xs, x = c) :
    List.foldl min c xs = c := by
  induction xs with
  | nil => rfl
  | cons y t ih =>
      have hy : y = c := h y (by simp)
      subst hy
      simp only [List.foldl_cons, min_self]
      exact ih (fun x hx => h x (by simp [hx]))

lemma foldl_max_const (c : ℚ) (xs : List ℚ) (h : ∀ x ∈ xs, x = c) :
    List.foldl max c xs = c := by
  induction xs with
  | nil => rfl
  | cons y t ih =>
      have hy : y = c := h y (by simp)
      subst hy
      simp only [List.foldl_cons, max_self]
      exact ih (fun x hx => h x (by simp [hx]))

lemma quantU8_clamp_le (y : ℚ) : quantU8 (clamp01 y) ≤ 255 := by
  have h1 : clamp01 y ≤ 1 := by
    unfold clamp01
    rcases le_total 1 y with h | h
    · simp [min_eq_left h]
    · rcases le_total 0 (min 1 y) with h2 | h2
      · simp [max_eq_right h2]
      · simp [max_eq_left h2]
  have h2 : clamp01 y * 255 ≤ 255 := by nlinarith
  have h3 : (⌊clamp01 y * 255⌋ : ℤ) ≤ 255 := by
    calc ⌊clamp01 y * 255⌋ ≤ ⌊(255 : ℚ)⌋ := Int.floor_le_floor h2
      _ = 255 := by norm_num
  unfold quantU8
  omega

/-! ## Claim theorems -/

/-- C1: newest-wins on the latest-only frame channel.  Submitting F1 and then
F2 via `submit` with no intervening take leaves exactly F2 pending: the next
`get_nowait` returns F2 and F1 is not observable.  (`submit` is modelled as a
total function: in the source every queue operation it performs is
non-blocking — `get_nowait`/`put_nowait` — and every exception is swallowed,
so it never blocks and never raises under backpressure.) -/
theorem C1_newest_wins (q : List PyArr) (d1 d2 : List (List ℚ)) :
    tryTake (submit (submit q (some (.a2 d1))) (some (.a2 d2)))
      = (some (.a2 d2), []) ∧
    (d1 ≠ d2 →
      (tryTake (submit (submit q (some (.a2 d1))) (some (.a2 d2)))).1
        ≠ some (.a2 d1)) := by
  refine ⟨rfl, fun h hc => h ?_⟩
  exact (PyArr.a2.inj (Option.some.inj hc)).symm

/-- Witness for C1 at concrete frames. -/
theorem C1_newest_wins_witness :
    (tryTake (submit (submit [] (some (PyArr.a2 [[1]]))) (some (PyArr.a2 [[2]])))).1
      ≠ some (PyArr.a2 [[1]]) :=
  (C1_newest_wins [] [[1]] [[2]]).2 (by decide)

/-- C10: `submit` accepts a rank-3 frame and enqueues its channel-0 slice
(`sonar[..., 0]`) as a rank-2 frame rather than rejecting it; rank-1 and
rank-2 frames are enqueued unchanged; only a `None` frame is rejected
(no-op). -/
theorem C10_rank3_channel0 (q : List PyArr) (d : List (List (List ℚ)))
    (v : List ℚ) (m : List (List ℚ)) :
    submit q (some (.a3 d))
        = [.a2 (d.map (fun row => row.map (fun px => px.headD 0)))] ∧
    submit q (some (.a1 v)) = [.a1 v] ∧
    submit q (some (.a2 m)) = [.a2 m] ∧
    submit q none = q :=
  ⟨rfl, rfl, rfl, rfl⟩

/-- C5 counterexample: an empty frame is NOT dropped at the point of
submission — `submit` only rejects `None`, so the empty rank-2 frame is
enqueued — and the error surfaces later in the pipeline: the worker's
normalization of that frame raises (modelled by `none`, the empty-tensor
reduction error). -/
theorem C5_counterexample :
    submit [] (some (PyArr.a2 [])) = [PyArr.a2 []] ∧
    normalize_to_u8 (1 / 10) none (PyArr.a2 []) = none :=
  ⟨rfl, rfl⟩

/-- C5 amended: only a `None` frame is dropped at submission.  A non-`None`
malformed frame is enqueued (here: the empty rank-2 frame); an empty frame
then raises inside the worker's normalization, which kills the worker thread
but leaves the shared state — in particular `ScaleState` — unchanged; a
nonempty wrong-rank (rank-1) frame is normalized without error. -/
theorem C5_amended_only_none_dropped (q : List PyArr) (a : ℚ) (st : ScaleState)
    (s : VizState) (x : ℚ) (xs : List ℚ) :
    submit q none = q ∧
    submit q (some (.a2 [])) = [.a2 []] ∧
    normalize_to_u8 a st (.a2 []) = none ∧
    workerStep a (.work (.a2 []), s) = (.dead, s) ∧
    ∃ r, normalize_to_u8 a st (.a1 (x :: xs)) = some r :=
  ⟨rfl, rfl, rfl, rfl, ⟨_, rfl⟩⟩

/-- C3: the scale state is updated by exponential smoothing
`lo' = (1-α)·lo + α·min`, `hi' = (1-α)·hi + α·max`; on the very first frame it
is seeded directly from the frame's min/max; and concretely, from state
`(0, 100)` with `α = 1/10`, one frame with min 0 and max 200 yields
`hi = 110` (exactly, in the rational model), not 200. -/
theorem C3_scale_smoothing :
    (∀ (a l h lo0 hi0 : ℚ) (img : PyArr),
        listMin img.elems = some lo0 → listMax img.elems = some hi0 →
        (normalize_to_u8 a (some (l, h)) img).map Prod.fst
          = some ((1 - a) * l + a * lo0, (1 - a) * h + a * hi0)) ∧
    (∀ (a lo0 hi0 : ℚ) (img : PyArr),
        listMin img.elems = some lo0 → listMax img.elems = some hi0 →
        (normalize_to_u8 a none img).map Prod.fst = some (lo0, hi0)) ∧
    (normalize_to_u8 (1 / 10) (some (0, 100)) (.a2 [[0, 200]])).map Prod.fst
      = some (0, 110) := by
  have part1 : ∀ (a l h lo0 hi0 : ℚ) (img : PyArr),
      listMin img.elems = some lo0 → listMax img.elems = some hi0 →
      (normalize_to_u8 a (some (l, h)) img).map Prod.fst
        = some ((1 - a) * l + a * lo0, (1 - a) * h + a * hi0) := by
    intro a l h lo0 hi0 img hmin hmax
    unfold normalize_to_u8
    rw [hmin, hmax]
    rfl
  refine ⟨part1, ?_, ?_⟩
  · intro a lo0 hi0 img hmin hmax
    unfold normalize_to_u8
    rw [hmin, hmax]
    rfl
  · have hmin : listMin (PyArr.elems (.a2 [[0, 200]])) = some 0 := by
      simp [listMin, PyArr.elems, min_def]
    have hmax : listMax (PyArr.elems (.a2 [[0, 200]])) = some 200 := by
      simp [listMax, PyArr.elems, max_def]
    rw [part1 (1 / 10) 0 100 0 200 (.a2 [[0, 200]]) hmin hmax]
    norm_num

/-- Witness for C3 at the concrete frame `[[0, 200]]` from state `(0, 100)`. -/
theorem C3_scale_smoothing_witness :
    (normalize_to_u8 (1 / 10) (some (0, 100)) (.a2 [[0, 200]])).map Prod.fst
      = some ((1 - 1 / 10) * 0 + (1 / 10) * 0,
              (1 - 1 / 10) * 100 + (1 / 10) * 200) :=
  C3_scale_smoothing.1 (1 / 10) 0 100 0 200 (.a2 [[0, 200]]) (by decide) (by decide)

/-- C4: a uniform (flat) nonempty frame, normalized from a fresh scale state,
yields the all-zero frame of the same shape without raising; the stored scale
state is the exact finite pair `(c, c)` (no NaN/Inf can arise in the rational
model: the degenerate denominator is floored to `1e-6` before the division,
as in the source). -/
theorem C4_uniform_frame_zeros (a c : ℚ) (rows : List (List ℚ))
    (hne : rows.flatten ≠ [])
    (huni : ∀ x ∈ rows.flatten, x = c) :
    normalize_to_u8 a none (.a2 rows)
      = some ((c, c), .a2 (rows.map (fun r => r.map (fun _ => 0)))) := by
  obtain ⟨x, xs, hfl⟩ : ∃ x xs, rows.flatten = x :: xs := by
    cases h : rows.flatten with
    | nil => exact absurd h hne
    | cons x xs => exact ⟨x, xs, rfl⟩
  have hx : x = c := huni x (by simp [hfl])
  have hxs : ∀ y ∈ xs, y = c := fun y hy => huni y (by simp [hfl, hy])
  have hmin : listMin (PyArr.elems (.a2 rows)) = some c := by
    show listMin rows.flatten = some c
    rw [hfl]
    simp only [listMin, Option.some.injEq]
    rw [hx, foldl_min_const c xs hxs]
  have hmax : listMax (PyArr.elems (.a2 rows)) = some c := by
    show listMax rows.flatten = some c
    rw [hfl]
    simp only [listMax, Option.some.injEq]
    rw [hx, foldl_max_const c xs hxs]
  have key : rows.map
      (fun r => r.map (fun y => quantU8 (clamp01 ((y - c) / (c + 1 / 1000000 - c)))))
      = rows.map (fun r => r.map (fun _ => (0 : ℕ))) := by
    apply List.map_congr_left
    intro r hr
    apply List.map_congr_left
    intro y hy
    have hyc : y = c := huni y (List.mem_flatten.mpr ⟨r, hr, hy⟩)
    subst hyc
    simp [clamp01, quantU8]
  unfold normalize_to_u8
  rw [hmin, hmax]
  show some ((c, c), PyArrN.a2 (rows.map (fun r => r.map (fun y =>
      quantU8 (clamp01 ((y - c) /
        ((if c - c < 1 / 1000000 then c + 1 / 1000000 else c) - c))))))) = _
  rw [if_pos (by rw [sub_self]; norm_num : c - c < (1 : ℚ) / 1000000)]
  rw [key]

/-- C8: normalizing any nonempty rank-2 frame succeeds and produces a frame
of the identical shape (the same list-of-rows structure, elementwise mapped,
so row count and every row length are preserved) whose every element lies in
`[0, 255]` (uint8 range; values are naturals, so `0 ≤` is automatic). -/
theorem C8_roundtrip_shape (a : ℚ) (st : ScaleState) (rows : List (List ℚ))
    (hne : rows.flatten ≠ []) :
    ∃ (st' : ℚ × ℚ) (f : ℚ → ℕ),
      normalize_to_u8 a st (.a2 rows)
        = some (st', .a2 (rows.map (fun r => r.map f))) ∧
      (rows.map (fun r => r.map f)).length = rows.length ∧
      (∀ r : List ℚ, (r.map f).length = r.length) ∧
      (∀ y, f y ≤ 255) := by
  obtain ⟨x, xs, hfl⟩ : ∃ x xs, rows.flatten = x :: xs := by
    cases h : rows.flatten with
    | nil => exact absurd h hne
    | cons x xs => exact ⟨x, xs, rfl⟩
  have hmin : listMin (PyArr.elems (.a2 rows)) = some (xs.foldl min x) := by
    show listMin rows.flatten = _
    rw [hfl]
    rfl
  have hmax : listMax (PyArr.elems (.a2 rows)) = some (xs.foldl max x) := by
    show listMax rows.flatten = _
    rw [hfl]
    rfl
  cases st with
  | none =>
      refine ⟨(xs.foldl min x, xs.foldl max x),
        fun y => quantU8 (clamp01 ((y - xs.foldl min x) /
          ((if xs.foldl max x - xs.foldl min x < 1 / 1000000
              then xs.foldl min x + 1 / 1000000
              else xs.foldl max x) - xs.foldl min x))),
        ?_, by simp, fun r => by simp, fun y => quantU8_clamp_le _⟩
      unfold normalize_to_u8
      rw [hmin, hmax]
      rfl
  | some p =>
      obtain ⟨l, h⟩ := p
      refine ⟨((1 - a) * l + a * xs.foldl min x, (1 - a) * h + a * xs.foldl max x),
        fun y => quantU8 (clamp01 ((y - ((1 - a) * l + a * xs.foldl min x)) /
          ((if (1 - a) * h + a * xs.foldl max x - ((1 - a) * l + a * xs.foldl min x)
                < 1 / 1000000
              then (1 - a) * l + a * xs.foldl min x + 1 / 1000000
              else (1 - a) * h + a * xs.foldl max x)
            - ((1 - a) * l + a * xs.foldl min x)))),
        ?_, by simp, fun r => by simp, fun y => quantU8_clamp_le _⟩
      unfold normalize_to_u8
      rw [hmin, hmax]
      rfl

/-- Witness for C8 at the concrete frame `[[1, 2]]`. -/
theorem C8_roundtrip_shape_witness :
    ∃ (st' : ℚ × ℚ) (f : ℚ → ℕ),
      normalize_to_u8 (1 / 10) none (.a2 [[1, 2]])
        = some (st', .a2 ([[1, 2]].map (fun r => r.map f))) ∧
      ([[1, 2]].map (fun r => r.map f)).length = ([[1, 2]] : List (List ℚ)).length ∧
      (∀ r : List ℚ, (r.map f).length = r.length) ∧
      (∀ y, f y ≤ 255) :=
  C8_roundtrip_shape (1 / 10) none [[1, 2]] (by decide)

/-- The EMA update preserves `lo ≤ hi` when it succeeds (for a smoothing
factor in `[0, 1]`). -/
lemma normalize_preserves_inv {a : ℚ} (h0 : 0 ≤ a) (h1 : a ≤ 1)
    {st : ScaleState} (hst : ScaleInv st) {img : PyArr} {st' : ℚ × ℚ}
    {u8 : PyArrN} (heq : normalize_to_u8 a st img = some (st', u8)) :
    st'.1 ≤ st'.2 := by
  unfold normalize_to_u8 at heq
  cases hmin : listMin img.elems with
  | none => rw [hmin] at heq; simp at heq
  | some m =>
    cases hmax : listMax img.elems with
    | none => rw [hmin, hmax] at heq; simp at heq
    | some M =>
      rw [hmin, hmax] at heq
      have hmM : m ≤ M := listMin_le_listMax hmin hmax
      cases st with
      | none =>
          simp only [Option.some.injEq, Prod.mk.injEq] at heq
          obtain ⟨h2, -⟩ := heq
          rw [← h2]
          exact hmM
      | some p =>
          obtain ⟨l, h⟩ := p
          simp only [ScaleInv] at hst
          simp only [Option.some.injEq, Prod.mk.injEq] at heq
          obtain ⟨h2, -⟩ := heq
          rw [← h2]
          show (1 - a) * l + a * m ≤ (1 - a) * h + a * M
          have e1 : (1 - a) * l ≤ (1 - a) * h :=
            mul_le_mul_of_nonneg_left hst (by linarith)
          have e2 : a * m ≤ a * M := mul_le_mul_of_nonneg_left hmM h0
          linarith

/-- C9 (implicit invariant): for a smoothing factor in `[0, 1]` (the update
is a convex combination, default `α = 0.1`), the scale-state invariant
`_lo ≤ _hi` holds after the worker processes any sequence of frames from any
state satisfying it (in particular from the fresh `None` state): seeding uses
a frame's own min/max, and the EMA update preserves the order. -/
theorem C9_scale_invariant (a : ℚ) (h0 : 0 ≤ a) (h1 : a ≤ 1)
    (frames : List PyArr) (st : ScaleState) (hst : ScaleInv st) :
    ScaleInv (processSeq a frames st) := by
  induction frames generalizing st with
  | nil => exact hst
  | cons f rest ih =>
      have hstep : processSeq a (f :: rest) st
          = match normalize_to_u8 a st f with
            | some (st', _) => processSeq a rest (some st')
            | none => processSeq a rest st := rfl
      cases hn : normalize_to_u8 a st f with
      | none =>
          rw [hstep, hn]
          exact ih st hst
      | some p =>
          obtain ⟨st1, u1⟩ := p
          rw [hstep, hn]
          exact ih (some st1) (normalize_preserves_inv h0 h1 hst hn)

/-- Witness for C9: a concrete two-frame run from the fresh state. -/
theorem C9_scale_invariant_witness :
    ScaleInv (processSeq (1 / 10) [.a2 [[1, 3]], .a2 [[0, 7]]] none) :=
  C9_scale_invariant (1 / 10) (by norm_num) (by norm_num)
    [.a2 [[1, 3]], .a2 [[0, 7]]] none trivial

/-- C6 counterexample: `close` only clears the running flag — it performs no
join.  Concretely: the worker is blocked in its receive call (`recv`), the
main thread calls `close` (which returns at once, flag cleared), then submits
one more frame; the worker's next two steps pick that frame up and mutate the
scale state from `none` to `some (5, 5)` — a state mutation after `close`
returned, caused by a frame submitted after `close` returned. -/
theorem C6_counterexample :
    (close ⟨true, [], [], none⟩).running = false ∧
    (⟨true, [], [], none⟩ : VizState).scale = none ∧
    (workerSteps (1 / 10) 2
        (.recv, submitAction (close ⟨true, [], [], none⟩)
          (some (.a2 [[5]])))).2.scale = some (5, 5) :=
  ⟨rfl, rfl, rfl⟩

/-- C6 amended: calling `close` twice is harmless and idempotent (the body is
just a flag write), but there is no join: all `close` guarantees is that once
the worker reaches its next loop-top running check it halts and performs no
further state mutation.  A worker already past the check may still process
one more frame after `close` returns (see the counterexample). -/
theorem C6_close_amended (s : VizState) (a : ℚ) (n : ℕ)
    (hs : s.running = false) :
    close (close s) = close s ∧
    (close s).running = false ∧
    workerSteps a n (.check, s) = (if n = 0 then WPC.check else WPC.halted, s) := by
  refine ⟨rfl, rfl, ?_⟩
  have hhalt : ∀ (k : ℕ) (c : VizState),
      workerSteps a k (WPC.halted, c) = (WPC.halted, c) := by
    intro k
    induction k with
    | zero => intro c; rfl
    | succ j ihj => intro c; exact ihj c
  cases n with
  | zero => rfl
  | succ m =>
      have h1 : workerStep a (.check, s) = (.halted, s) := by
        show (if s.running = true then (WPC.recv, s) else (WPC.halted, s))
          = (.halted, s)
        rw [hs]
        rfl
      have h2 : workerSteps a (m + 1) (.check, s)
          = workerSteps a m (workerStep a (.check, s)) := rfl
      rw [h2, h1, hhalt]
      simp

/-- Witness for C6 (amended) at a concrete stopped state. -/
theorem C6_close_amended_witness :
    close (close ⟨false, [], [], none⟩) = close ⟨false, [], [], none⟩ ∧
    (close ⟨false, [], [], none⟩).running = false ∧
    workerSteps (1 / 10) 3 (.check, ⟨false, [], [], none⟩)
      = (if (3 : ℕ) = 0 then WPC.check else WPC.halted, ⟨false, [], [], none⟩) :=
  C6_close_amended ⟨false, [], [], none⟩ (1 / 10) 3 rfl

/-- If the renderer's last-present timestamp already lies in the window
`[t0, t0 + 1/plot_hz)` containing all remaining call times, no further call
presents anything and the renderer state is unchanged. -/
lemma runCalls_no_present (hz t0 : ℚ) (calls : List (ℚ × List PyArrN))
    (st : RenderState)
    (hw : ∀ c ∈ calls, t0 ≤ c.1 ∧ c.1 < t0 + 1 / hz)
    (hst : t0 ≤ st.last_plot_time) :
    runCalls hz calls st = (st, 0) := by
  induction calls with
  | nil => rfl
  | cons c rest ih =>
      obtain ⟨now, q⟩ := c
      have hc := hw (now, q) (by simp)
      have hlt : now - st.last_plot_time < 1 / hz := by
        have := hc.2
        linarith
      have hup : update_plot hz now st q = (st, q, false) := by
        unfold update_plot
        rw [if_pos hlt]
      have hrc : runCalls hz ((now, q) :: rest) st
          = ((runCalls hz rest (update_plot hz now st q).1).1,
             (runCalls hz rest (update_plot hz now st q).1).2
               + if (update_plot hz now st q).2.2 then 1 else 0) := rfl
      rw [hrc, hup]
      rw [ih (fun c hc2 => hw c (by simp [hc2]))]
      rfl

/-- C7: the renderer is rate-limited to the `plot_hz` ceiling.  Any sequence
of `update_plot` invocations whose wall-clock times all lie within one window
of length `1/plot_hz` performs at most one display update (so 100 calls
within `1/plot_hz` seconds present at most once); an invocation finding the
processed-frame channel empty is a no-op (the state, hence the displayed
frame, is unchanged); and an invocation within `1/plot_hz` of the last
present does nothing at all. -/
theorem C7_rate_limited (hz t0 : ℚ) (calls : List (ℚ × List PyArrN))
    (st : RenderState)
    (hw : ∀ c ∈ calls, t0 ≤ c.1 ∧ c.1 < t0 + 1 / hz) :
    (runCalls hz calls st).2 ≤ 1 ∧
    (∀ (now : ℚ) (st2 : RenderState), update_plot hz now st2 [] = (st2, [], false)) ∧
    (∀ (now : ℚ) (st2 : RenderState) (q : List PyArrN),
        now - st2.last_plot_time < 1 / hz →
        update_plot hz now st2 q = (st2, q, false)) := by
  refine ⟨?_, ?_, ?_⟩
  · induction calls generalizing st with
    | nil => norm_num [runCalls]
    | cons c rest ih =>
        obtain ⟨now, q⟩ := c
        have hrc : runCalls hz ((now, q) :: rest) st
            = ((runCalls hz rest (update_plot hz now st q).1).1,
               (runCalls hz rest (update_plot hz now st q).1).2
                 + if (update_plot hz now st q).2.2 then 1 else 0) := rfl
        have hwr : ∀ c ∈ rest, t0 ≤ c.1 ∧ c.1 < t0 + 1 / hz :=
          fun c hc2 => hw c (by simp [hc2])
        by_cases hlt : now - st.last_plot_time < 1 / hz
        · have hup : update_plot hz now st q = (st, q, false) := by
            unfold update_plot
            rw [if_pos hlt]
          rw [hrc, hup]
          simpa using ih st hwr
        · cases q with
          | nil =>
              have hup : update_plot hz now st [] = (st, [], false) := by
                unfold update_plot
                rw [if_neg hlt]
              rw [hrc, hup]
              simpa using ih st hwr
          | cons u8 q2 =>
              have hup : update_plot hz now st (u8 :: q2)
                  = (⟨now, some u8⟩, q2, true) := by
                unfold update_plot
                rw [if_neg hlt]
              have hzero : runCalls hz rest (⟨now, some u8⟩ : RenderState)
                  = (⟨now, some u8⟩, 0) :=
                runCalls_no_present hz t0 rest _ hwr (hw (now, u8 :: q2) (by simp)).1
              rw [hrc, hup, hzero]
              norm_num
  · intro now st2
    unfold update_plot
    split
    · rfl
    · rfl
  · intro now st2 q hlt
    unfold update_plot
    rw [if_pos hlt]

/-- Witness for C7: three calls inside one `1/3`-second window (`plot_hz`
= 3) starting from an old last-present timestamp; the first call presents,
the rest do nothing. -/
theorem C7_rate_limited_witness :
    (runCalls 3 [(0, [PyArrN.a2 [[1]]]), (1 / 4, [PyArrN.a2 [[2]]]), (1 / 4, [])]
        ⟨-100, none⟩).2 ≤ 1 ∧
    (∀ (now : ℚ) (st2 : RenderState), update_plot 3 now st2 [] = (st2, [], false)) ∧
    (∀ (now : ℚ) (st2 : RenderState) (q : List PyArrN),
        now - st2.last_plot_time < 1 / 3 →
        update_plot 3 now st2 q = (st2, q, false)) :=
  C7_rate_limited 3 0 [(0, [PyArrN.a2 [[1]]]), (1 / 4, [PyArrN.a2 [[2]]]), (1 / 4, [])]
    ⟨-100, none⟩ (by
      intro c hc
      simp only [List.mem_cons, List.not_mem_nil, or_false] at hc
      rcases hc with rfl | rfl | rfl <;> norm_num)

/-- Writing four equal-length profiles into columns 0..3 of a fresh 4-column
zero buffer yields exactly the column-stacked matrix. -/
lemma writeCol4 (R : ℕ) (p1 p2 p3 p4 : List ℚ)
    (h1 : p1.length = R) (h2 : p2.length = R)
    (h3 : p3.length = R) (h4 : p4.length = R) :
    writeCol (writeCol (writeCol (writeCol
        (List.replicate R (List.replicate 4 0)) 0 p1) 1 p2) 2 p3) 3 p4
      = colStack4 p1 p2 p3 p4 := by
  induction R generalizing p1 p2 p3 p4 with
  | zero =>
      rw [List.length_eq_zero] at h1 h2 h3 h4
      subst h1; subst h2; subst h3; subst h4
      rfl
  | succ n ih =>
      obtain ⟨a, t1, rfl⟩ : ∃ a t, p1 = a :: t := by
        cases p1 with
        | nil => simp at h1
        | cons a t => exact ⟨a, t, rfl⟩
      obtain ⟨b, t2, rfl⟩ : ∃ b t, p2 = b :: t := by
        cases p2 with
        | nil => simp at h2
        | cons b t => exact ⟨b, t, rfl⟩
      obtain ⟨c, t3, rfl⟩ : ∃ c t, p3 = c :: t := by
        cases p3 with
        | nil => simp at h3
        | cons c t => exact ⟨c, t, rfl⟩
      obtain ⟨d, t4, rfl⟩ : ∃ d t, p4 = d :: t := by
        cases p4 with
        | nil => simp at h4
        | cons d t => exact ⟨d, t, rfl⟩
      show [a, b, c, d] :: writeCol (writeCol (writeCol (writeCol
          (List.replicate n (List.replicate 4 0)) 0 t1) 1 t2) 2 t3) 3 t4
        = [a, b, c, d] :: colStack4 t1 t2 t3 t4
      exact congrArg _ (ih t1 t2 t3 t4 (by simpa using h1) (by simpa using h2)
        (by simpa using h3) (by simpa using h4))

/-- C2 (amended): feeding a fresh accumulator configured with 4 azimuth bins
four profiles yields `None` on the first three `step` calls; the 4th call
returns the completed frame — `build_image` applied to the column-stacked
profiles, i.e. (in the order of the source) time-varying gain, `log1p`
compression, division by the frame's own maximum *plus 1e-6*, uint8
quantization, and transposition to azimuth x range — and resets the cursor
to 0; a 5th call begins a fresh sweep (it returns `None` again, writing at
column 0).  Holds for every log-compression function, every range
configuration, and all profiles of the configured length. -/
theorem C2_sweep_completion (f : ℚ → ℚ) (rmax : ℚ) (R : ℕ)
    (p1 p2 p3 p4 p5 : List ℚ)
    (h1 : p1.length = R) (h2 : p2.length = R)
    (h3 : p3.length = R) (h4 : p4.length = R) :
    (runSteps f (Scanner.init 4 R rmax) [p1, p2, p3, p4]).2
      = [none, none, none,
         some (Scanner.build_image f ⟨4, R, rmax, 0, colStack4 p1 p2 p3 p4⟩)] ∧
    (runSteps f (Scanner.init 4 R rmax) [p1, p2, p3, p4]).1
      = ⟨4, R, rmax, 0, colStack4 p1 p2 p3 p4⟩ ∧
    ((runSteps f (Scanner.init 4 R rmax) [p1, p2, p3, p4]).1.step f p5).2
      = none := by
  have hbuf := writeCol4 R p1 p2 p3 p4 h1 h2 h3 h4
  have hrun : runSteps f (Scanner.init 4 R rmax) [p1, p2, p3, p4]
      = (⟨4, R, rmax, 0, writeCol (writeCol (writeCol (writeCol
            (List.replicate R (List.replicate 4 0)) 0 p1) 1 p2) 2 p3) 3 p4⟩,
         [none, none, none,
          some (Scanner.build_image f ⟨4, R, rmax, 0,
            writeCol (writeCol (writeCol (writeCol
              (List.replicate R (List.replicate 4 0)) 0 p1) 1 p2) 2 p3) 3 p4⟩)]) :=
    rfl
  rw [hbuf] at hrun
  refine ⟨by rw [hrun], by rw [hrun], ?_⟩
  rw [hrun]
  rfl

/-- Witness for C2 (amended) at four concrete profiles of length 2. -/
theorem C2_sweep_completion_witness :
    (runSteps (fun x => x) (Scanner.init 4 2 50)
        [[1, 2], [3, 4], [5, 6], [7, 8]]).2
      = [none, none, none,
         some (Scanner.build_image (fun x => x)
           ⟨4, 2, 50, 0, colStack4 [1, 2] [3, 4] [5, 6] [7, 8]⟩)] ∧
    (runSteps (fun x => x) (Scanner.init 4 2 50)
        [[1, 2], [3, 4], [5, 6], [7, 8]]).1
      = ⟨4, 2, 50, 0, colStack4 [1, 2] [3, 4] [5, 6] [7, 8]⟩ ∧
    ((runSteps (fun x => x) (Scanner.init 4 2 50)
        [[1, 2], [3, 4], [5, 6], [7, 8]]).1.step (fun x => x) [0, 0]).2
      = none :=
  C2_sweep_completion (fun x => x) 50 2 [1, 2] [3, 4] [5, 6] [7, 8] [0, 0]
    rfl rfl rfl rfl

/-- C2 counterexample: the emitted frame is NOT "the column-stacked profiles
with TVG, log compression, normalization by the frame's own maximum and uint8
quantization applied": the source divides by `max + 1e-6` (not `max`) and
then transposes to azimuth x range.  With 2 range bins and 1 azimuth bin the
emitted frame has 1 row of 2 entries while the claimed frame has 2 rows of 1
entry, so they differ whatever the numeric entries are (the log-compression
slot is instantiated with the identity; the shape divergence is independent
of it). -/
theorem C2_counterexample :
    ((Scanner.init 1 2 1).step (fun x => x) [1, 2]).2
      ≠ some (Scanner.build_image_claim (fun x => x)
          ((Scanner.init 1 2 1).step (fun x => x) [1, 2]).1) := by
  intro h
  have hcode : ((Scanner.init 1 2 1).step (fun x => x) [1, 2]).2
      = some (Scanner.build_image (fun x => x) ⟨1, 2, 1, 0, [[1], [2]]⟩) := rfl
  rw [hcode] at h
  have h2 := Option.some.inj h
  have hlen := congrArg List.length h2
  have hL : (Scanner.build_image (fun x => x) ⟨1, 2, 1, 0, [[1], [2]]⟩).length
      = 1 := rfl
  have hR : (Scanner.build_image_claim (fun x => x)
      ((Scanner.init 1 2 1).step (fun x => x) [1, 2]).1).length = 2 := rfl
  rw [hL, hR] at hlen
  exact absurd hlen (by decide)

/-- Witness for C4 at the concrete uniform 2x2 frame of 5s. -/
theorem C4_uniform_frame_zeros_witness :
    normalize_to_u8 (1 / 10) none (.a2 [[5, 5], [5, 5]])
      = some ((5, 5), .a2 ([[5, 5], [5, 5]].map (fun r => r.map (fun _ => 0)))) :=
  C4_uniform_frame_zeros (1 / 10) 5 [[5, 5], [5, 5]] (by decide) (by decide)
